import Mathlib

/-!
Shallow embedding of the IMDb SQLite cache core (src/src/sql.py, with the
retrying fetch of src/lib/imdb.py and src/src/util.py) and proofs about the
behaviour of its query compiler, its TTL-driven add loop and its
autocomplete pipeline.

Modelling conventions, stated once:
* A JSON document is the inductive `Json`; the `data` column of the `titles`
  table stores the decoded document directly (json.dumps / json.loads are
  treated as inverse bijections).
* SQL values produced by json_extract / json_each are `SqlVal` (NULL, a
  number, or text).  SQLite coerces JSON arrays and objects appearing as
  values to their serialized text, modelled by `serializeJson`.
* Timestamps (time.time(), the ttl) are modelled as integers: every claim
  only uses ordering and subtraction of times, and integer-valued reals
  suffice for all witnesses.  JSON numbers stay rational so that fractional
  ratings such as 8.9 are representable.
* LIKE with pattern the string percent-v-percent is modelled as
  case-insensitive substring containment (ASCII case folding, as SQLite
  applies to LIKE); the query values used by the claims contain no LIKE
  metacharacters.
-/

/-! ### String helpers -/

/-- Containment of a contiguous run: `hasRun needle hay` is true when
`needle` occurs as a contiguous sub-list of `hay`. -/
def hasRun : List Char → List Char → Bool
  | needle, [] => needle.isEmpty
  | needle, c :: cs => needle.isPrefixOf (c :: cs) || hasRun needle cs

/-- ASCII-style lower casing of a string, as a character list. -/
def lowerList (s : String) : List Char := s.toList.map Char.toLower

/-- Case-insensitive substring test: the semantics of the SQL fragment
`x LIKE '%needle%'` on a text value `hay` (SQLite LIKE is case-insensitive). -/
def containsCI (needle hay : String) : Bool := hasRun (lowerList needle) (lowerList hay)

/-- Case-sensitive substring test (Python `needle in hay` on strings). -/
def containsSub (needle hay : String) : Bool := hasRun needle.toList hay.toList

/-- Split a list at the first occurrence of the pattern `pat`, returning the
parts before and after it, or `none` when the pattern does not occur.
This models Python `key.split(pat, maxsplit=1)` together with `pat in key`. -/
def splitAtPat (pat : List Char) : List Char → Option (List Char × List Char)
  | [] => if pat.isEmpty then some ([], []) else none
  | c :: cs =>
    if pat.isPrefixOf (c :: cs) then some ([], (c :: cs).drop pat.length)
    else match splitAtPat pat cs with
      | some (a, b) => some (c :: a, b)
      | none => none

/-- Helper for `splitDots`: accumulates the current segment (reversed). -/
def splitDotsGo : List Char → List Char → List String
  | [], acc => [String.mk acc.reverse]
  | c :: cs, acc =>
    if c = '.' then String.mk acc.reverse :: splitDotsGo cs []
    else splitDotsGo cs (c :: acc)

/-- Split a string on every dot, like Python `s.split('.')`; used to read
JSON paths of the shape `$.a.b`. -/
def splitDots (s : String) : List String := splitDotsGo s.toList []

/-- Code-point comparison of character lists; the order Python `sorted` and
the SQLite BINARY collation use for the ASCII strings of the claims. -/
def charListLe : List Char → List Char → Bool
  | [], _ => true
  | _ :: _, [] => false
  | a :: as, b :: bs =>
    if a.val < b.val then true
    else if b.val < a.val then false
    else charListLe as bs

/-- Code-point order on strings. -/
def strLeB (a b : String) : Bool := charListLe a.toList b.toList

/-! ### JSON documents -/

/-- A decoded JSON document (the payload stored in the `data` column). -/
inductive Json where
  | null : Json
  | bool : Bool → Json
  | num : Rat → Json
  | str : String → Json
  | arr : List Json → Json
  | obj : List (String × Json) → Json

/-- Text form of a JSON number as SQLite renders it (integers exactly;
non-integral rationals are rendered as numerator slash denominator, a
simplification that no claim exercises). -/
def ratText (q : Rat) : String := if q.den = 1 then toString q.num else toString q

mutual

/-- Serialization of a JSON document to its SQLite JSON text (minified, no
escaping of special characters; the documents of the claims need none). -/
def serializeJson : Json → String
  | .null => "null"
  | .bool b => if b then "true" else "false"
  | .num q => ratText q
  | .str s => "\"" ++ s ++ "\""
  | .arr xs => "[" ++ serializeList xs ++ "]"
  | .obj fs => "\x7b" ++ serializeFields fs ++ "\x7d"

/-- Serialization of the elements of a JSON array, comma separated. -/
def serializeList : List Json → String
  | [] => ""
  | [x] => serializeJson x
  | x :: y :: xs => serializeJson x ++ "," ++ serializeList (y :: xs)

/-- Serialization of the members of a JSON object, comma separated. -/
def serializeFields : List (String × Json) → String
  | [] => ""
  | [(k, v)] => "\"" ++ k ++ "\":" ++ serializeJson v
  | (k, v) :: p :: fs => "\"" ++ k ++ "\":" ++ serializeJson v ++ "," ++ serializeFields (p :: fs)

end

/-! ### The record store -/

/-- One row of the `titles` table:
`id TEXT PRIMARY KEY, data TEXT NOT NULL, last_updated REAL NOT NULL`. -/
structure Row where
  id : String
  data : Json
  last_updated : Int

/-- The stored table, in row order.  The PRIMARY KEY invariant (no two rows
share an id) is carried as a `Nodup` hypothesis where a proof needs it. -/
abbrev Table := List Row

/-- `SELECT data, last_updated FROM titles WHERE id=?` — the first row with
the given id, if any. -/
def rowLookup (db : Table) (i : String) : Option Row := db.find? (fun r => r.id == i)

/-- An SQL value as produced by json_extract or the value column of
json_each: NULL, a number, or text. -/
inductive SqlVal where
  | null : SqlVal
  | num : Rat → SqlVal
  | text : String → SqlVal
deriving DecidableEq

/-- Conversion of a JSON extraction result to the SQL value it denotes:
a missing path or JSON null is SQL NULL, booleans become the integers 0/1,
arrays and objects appear as their JSON text. -/
def toSqlVal : Option Json → SqlVal
  | none => .null
  | some .null => .null
  | some (.bool b) => .num (if b then 1 else 0)
  | some (.num q) => .num q
  | some (.str s) => .text s
  | some (.arr xs) => .text (serializeJson (.arr xs))
  | some (.obj fs) => .text (serializeJson (.obj fs))

/-- Navigation of a JSON document along a list of object-field segments. -/
def jsonGet : Json → List String → Option Json
  | j, [] => some j
  | .obj fs, k :: ks =>
    match List.lookup k fs with
    | some v => jsonGet v ks
    | none => none
  | _, _ :: _ => none

/-- `json_extract(j, path)` for a dotted path of the shape `$.a.b`. -/
def jsonExtract (j : Json) (path : String) : Option Json :=
  match splitDots path with
  | "$" :: segs => jsonGet j segs
  | _ => none

/-- The rows of `json_each(j, path)` (their value column, as JSON): the
elements of an array, the member values of an object, the value itself for a
scalar, and no rows when the path selects nothing. -/
def jsonEach (j : Json) (path : String) : List Json :=
  match splitDots path with
  | "$" :: segs =>
    match jsonGet j segs with
    | none => []
    | some (.arr xs) => xs
    | some (.obj fs) => fs.map Prod.snd
    | some v => [v]
  | _ => []

/-! ### The condition compiler (`_get_sql_condition`) -/

/-- A query value, classified the way `_get_sql_condition` dispatches on the
Python value: a string, an int or float, a 2-tuple of numbers, the value
None (which `_query_task` skips before compiling), or any other shape. -/
inductive QValue where
  | vstr : String → QValue
  | vnum : Rat → QValue
  | vrange : Rat → Rat → QValue
  | vnone : QValue
  | vother : QValue
deriving DecidableEq

/-- The comparison shape of a compiled condition fragment. -/
inductive Cond where
  | like : String → Cond
  | eqNum : Rat → Cond
  | between : Rat → Rat → Cond
  | never : Cond

/-- `_get_sql_condition`: a string compiles to `LIKE '%v%'`, an int or float
to `= v`, a 2-tuple to `BETWEEN lo AND hi`, anything else to `1=0`. -/
def _get_sql_condition : QValue → Cond
  | .vstr s => .like s
  | .vnum q => .eqNum q
  | .vrange a b => .between a b
  | .vnone => .never
  | .vother => .never

/-- Evaluation of a condition fragment on an SQL value, following SQLite
semantics: LIKE folds case and coerces a numeric operand to text, the
numeric comparisons are false on NULL and on text (text sorts above every
number), `1=0` is false everywhere. -/
def evalCond (c : Cond) (v : SqlVal) : Bool :=
  match c with
  | .like s =>
    match v with
    | .text t => containsCI s t
    | .num q => containsCI s (ratText q)
    | .null => false
  | .eqNum q =>
    match v with
    | .num x => decide (x = q)
    | _ => false
  | .between a b =>
    match v with
    | .num x => decide (a ≤ x) && decide (x ≤ b)
    | _ => false
  | .never => false

/-! ### The query compiler (`_query_task`) -/

/-- Whether a key contains the wildcard marker, Python `'[*]' in key`. -/
def hasWildcard (key : String) : Bool := (splitAtPat "[*]".toList key.toList).isSome

/-- `key.split('[*]', maxsplit=1)` on a key containing the marker; the
second component is the raw sub-path (possibly empty). -/
def splitWildcard (key : String) : String × String :=
  match splitAtPat "[*]".toList key.toList with
  | some (a, b) => (String.mk a, String.mk b)
  | none => (key, "")

/-- The value tested by a wildcard condition for one array element: the
element itself when the sub-path is empty, otherwise
`json_extract(value, '$' + subPath)`. -/
def wildcardElemVal (e : Json) (subPath : String) : SqlVal :=
  if subPath = "" then toSqlVal (some e)
  else toSqlVal (jsonExtract e ("$" ++ subPath))

/-- One compiled WHERE fragment of `_query_task`: either a direct
`json_extract(data, path) COND`, or the wildcard sub-query
`id IN (SELECT t.id FROM titles t, json_each(t.data, arrayPath) WHERE ...)`. -/
inductive WhereClause where
  | plain : String → Cond → WhereClause
  | wildcard : String → String → Cond → WhereClause

/-- Compilation of one (key, value) predicate: a None value is skipped, a
wildcard key becomes the json_each sub-query on `$.` + the part before the
marker, any other key becomes a direct extraction on `$.key`. -/
def compilePred (kv : String × QValue) : Option WhereClause :=
  if kv.2 = .vnone then none
  else if hasWildcard kv.1 then
    some (.wildcard ("$." ++ (splitWildcard kv.1).1) (splitWildcard kv.1).2 (_get_sql_condition kv.2))
  else
    some (.plain ("$." ++ kv.1) (_get_sql_condition kv.2))

/-- Compilation of the whole predicate list, dropping skipped entries. -/
def compileQueries (qs : List (String × QValue)) : List WhereClause :=
  qs.filterMap compilePred

/-- Evaluation of one compiled fragment on a row.  The wildcard fragment is
the membership of the row id in the sub-query over the whole table. -/
def evalClause (db : Table) (r : Row) : WhereClause → Bool
  | .plain path c => evalCond c (toSqlVal (jsonExtract r.data path))
  | .wildcard ap sp c =>
    db.any fun t => (t.id == r.id) && (jsonEach t.data ap).any fun e => evalCond c (wildcardElemVal e sp)

/-- `_query_task`: compile the predicates; with no compiled fragment return
every stored payload, otherwise filter the table by the fragments joined
with OR (`union`) or AND, and return the decoded payloads in row order. -/
def _query_task (db : Table) (qs : List (String × QValue)) (union : Bool) : List Json :=
  let clauses := compileQueries qs
  if clauses.isEmpty then db.map (·.data)
  else
    (db.filter fun r =>
      if union then clauses.any (evalClause db r) else clauses.all (evalClause db r)).map (·.data)

/-- The value of a compiled fragment as a function of the payload alone;
`evalClause` coincides with it on a table whose ids are distinct. -/
def clauseOnData (c : WhereClause) (d : Json) : Bool :=
  match c with
  | .plain path c => evalCond c (toSqlVal (jsonExtract d path))
  | .wildcard ap sp c => (jsonEach d ap).any fun e => evalCond c (wildcardElemVal e sp)

/-- `_count_task`: `SELECT COUNT(*) FROM titles`. -/
def _count_task (db : Table) : Nat := db.length

/-! ### Autocomplete (`_autocomplete_task`) -/

/-- The (filter value, selected value) pairs the autocomplete SQL ranges
over.  For a wildcard key the FROM clause joins `titles` with
`json_each(data, '$.' + arrayPath)` and the selected value is the aliased
`value_check`; crucially the `WHERE value LIKE ?` filter resolves `value`
to the real value column of json_each (table columns shadow result aliases
in SQLite), i.e. the raw element, while the SELECT returns the sub-path
extraction.  For a plain key the table `titles` has no column named
`value`, so the alias is used and filter and selection coincide. -/
def collectPairs (db : Table) (key : String) : List (SqlVal × SqlVal) :=
  if hasWildcard key then
    (db.map fun r =>
      (jsonEach r.data ("$." ++ (splitWildcard key).1)).map fun e =>
        (toSqlVal (some e), wildcardElemVal e (splitWildcard key).2)).flatten
  else
    db.map fun r =>
      ((fun v => (v, v)) (toSqlVal (jsonExtract r.data ("$." ++ key))))

/-- Total order SQLite uses to ORDER BY a value column:
NULL, then numbers, then text. -/
def sqlLeB : SqlVal → SqlVal → Bool
  | .null, _ => true
  | .num _, .null => false
  | .num a, .num b => decide (a ≤ b)
  | .num _, .text _ => true
  | .text a, .text b => strLeB a b
  | .text _, _ => false

/-- The SQL ordering as a relation, for the sorting function. -/
def sqlLe (a b : SqlVal) : Prop := sqlLeB a b = true

instance : DecidableRel sqlLe := fun a b => instDecidableEqBool (sqlLeB a b) true

/-- The rows produced by the autocomplete query
`SELECT DISTINCT ... WHERE value LIKE '%q%' ORDER BY value LIMIT n`:
distinct selected values of the pairs whose filter value matches the LIKE,
in SQL order, capped at n. -/
def sqlValues (db : Table) (key q : String) (n : Nat) : List SqlVal :=
  (List.insertionSort sqlLe
    (((collectPairs db key).filter fun p => evalCond (.like q) p.1).map Prod.snd).dedup).take n

/-- Python `sorted` on the fetched values: defined when the values are all
numbers or all strings, mixed lists raise TypeError (the task then catches
the exception and returns None). -/
def pysorted (l : List SqlVal) : Option (List SqlVal) :=
  if (l.all fun v => match v with | .num _ => true | _ => false) ||
     (l.all fun v => match v with | .text _ => true | _ => false) then
    some (List.insertionSort sqlLe l)
  else none

/-- The text of a textual SQL value (defaulted, used only under an
all-text guard). -/
def textOf : SqlVal → String
  | .text s => s
  | _ => ""

/-- `_autocomplete_task`: run the SQL above, drop SQL NULLs, optionally
post-process (Python applies `post_proc` to each value, collects the
results in a set, i.e. deduplicates), sort, and return the value-to-value
mapping `dict(zip(cleaned, cleaned))` as an association list.  `none`
models the task swallowing an exception and returning None; applying a
string post-processor to a numeric value raises, as does sorting a mixed
list.  The `sort_key` parameter of the source is omitted: it only permutes
the intermediate row list, which the final `sorted` call (or the set
construction) makes irrelevant. -/
def _autocomplete_task (db : Table) (q key : String) (n : Nat)
    (post : Option (String → String)) : Option (List (SqlVal × SqlVal)) :=
  let values := (sqlValues db key q n).filter fun v => v ≠ SqlVal.null
  match post with
  | some f =>
    if values.all fun v => match v with | .text _ => true | _ => false then
      some ((List.insertionSort sqlLe ((values.map fun v => SqlVal.text (f (textOf v))).dedup)).map
        fun v => (v, v))
    else none
  | none =>
    match pysorted values with
    | none => none
    | some cleaned => some (cleaned.map fun v => (v, v))

/-! ### Task wrappers (the blanket `except Exception` of each task) -/

/-- The SQLite work a task performs, as a value or a raised exception.
The `Except.error` case stands for any sqlite3 error raised while the task
touches the database (a locked file, malformed stored JSON, a path the JSON
functions reject). -/
abbrev DbAttempt := Except String Table

/-- `_query_task` at the public boundary: the blanket except block logs,
rolls back and falls off the function, so a raised exception makes the
task return None instead of a list. -/
def queryTaskRun (conn : DbAttempt) (qs : List (String × QValue)) (union : Bool) :
    Option (List Json) :=
  match conn with
  | .error _ => none
  | .ok db => some (_query_task db qs union)

/-- `_count_task` at the public boundary. -/
def countTaskRun (conn : DbAttempt) : Option Nat :=
  match conn with
  | .error _ => none
  | .ok db => some (_count_task db)

/-- `_autocomplete_task` at the public boundary. -/
def autocompleteTaskRun (conn : DbAttempt) (q key : String) (n : Nat)
    (post : Option (String → String)) : Option (List (SqlVal × SqlVal)) :=
  match conn with
  | .error _ => none
  | .ok db => _autocomplete_task db q key n post

/-! ### The add loop (`_add_task`) -/

/-- `chunks(it, n)` of src/src/util.py for positive n: successive slices of
n items (the fuel argument makes the recursion structural; `chunks` raises
on non-positive n, modelled as the empty result, and `_add_task` only calls
it with n = 5). -/
def chunksGo (n : Nat) : Nat → List String → List (List String)
  | _, [] => []
  | 0, _ :: _ => []
  | fuel + 1, x :: xs => (x :: xs).take n :: chunksGo n fuel ((x :: xs).drop n)

/-- `chunks(ids, n)` as a list of sub-batches. -/
def chunks (l : List String) (n : Nat) : List (List String) :=
  if n = 0 then [] else chunksGo n l.length l

/-- Whether an id needs a refresh:
`not entry or now - entry['last_updated'] >= self.ttl`. -/
def needsUpdate (db : Table) (i : String) (now ttl : Int) : Bool :=
  match rowLookup db i with
  | none => true
  | some r => decide (now - r.last_updated ≥ ttl)

/-- The upsert `INSERT ... ON CONFLICT(id) DO UPDATE SET ...`: replace the
row with the id in place, or append a fresh row. -/
def upsert (db : Table) (i : String) (d : Json) (ts : Int) : Table :=
  if db.any fun r => r.id == i then
    db.map fun r => if r.id == i then ⟨i, d, ts⟩ else r
  else db ++ [⟨i, d, ts⟩]

/-- How `_add_task` reacts to one fetched response, following
`if not data or 'titles' not in data: log; continue` and then
`for title in data.get('titles', [])`:
* `skip` — the guard fires (None, a falsy value, or no titles member):
  log the malformed response and continue with the next sub-batch;
* `proceed ts` — iterate the title items `ts`;
* `raiseErr` — the Python expression raises (membership test on a number,
  `.get` on a non-dict that passed the guard, iterating a non-iterable
  titles value); the blanket except then aborts the whole loop. -/
inductive RespClass where
  | skip : RespClass
  | proceed : List Json → RespClass
  | raiseErr : RespClass

/-- Classification of one `fetch_sync` result, mirroring Python truthiness
and the membership test on each JSON shape. -/
def classifyResp : Option Json → RespClass
  | none => .skip
  | some .null => .skip
  | some (.bool b) => if b then .raiseErr else .skip
  | some (.num q) => if q = 0 then .skip else .raiseErr
  | some (.str s) =>
    if s.isEmpty then .skip
    else if containsSub "titles" s then .raiseErr
    else .skip
  | some (.arr xs) =>
    if xs.isEmpty then .skip
    else if xs.any fun j => match j with | .str s => s == "titles" | _ => false then .raiseErr
    else .skip
  | some (.obj fs) =>
    if fs.isEmpty then .skip
    else match List.lookup "titles" fs with
      | none => .skip
      | some (.arr ts) => .proceed ts
      | some (.str t) => if t.isEmpty then .proceed [] else .raiseErr
      | some (.obj g) => if g.isEmpty then .proceed [] else .raiseErr
      | some _ => .raiseErr

/-- The body of `for title in titles`: skip non-movie items, upsert movie
items under their id with the current time.  `Except.error` is a raised
exception: a title that is not an object (indexing fails), an object
without a type or, for a movie, without an id (KeyError), an id that is not
a string (parameter binding; the string coercions SQLite would apply to a
numeric id are not exercised by any claim), or an sqlite3 error from the
upsert itself, injected through the oracle `upOk`. -/
def processTitles (upOk : String → Bool) (now : Int) : List Json → Table → Except Unit Table
  | [], db => .ok db
  | t :: ts, db =>
    match t with
    | .obj fs =>
      match List.lookup "type" fs with
      | none => .error ()
      | some ty =>
        if (match ty with | .str s => s == "movie" | _ => false) then
          match List.lookup "id" fs with
          | none => .error ()
          | some (.str i) =>
            if upOk i then processTitles upOk now ts (upsert db i (Json.obj fs) now)
            else .error ()
          | some _ => .error ()
        else processTitles upOk now ts db
    | _ => .error ()

/-- The observable outcome of `_add_task`: the committed table, the list of
id batches for which a remote fetch was issued (the call spy of the spec),
and the exception escaping to the caller — the blanket except block makes
the last component always none. -/
structure AddResult where
  db : Table
  calls : List (List String)
  escaped : Option Unit

/-- The batch loop of `_add_task`: per sub-batch, collect the ids that are
missing or stale; skip the remote call when there are none; otherwise fetch
(recording the call), skip a malformed response, and on a good response
upsert the movie titles and commit.  A raised exception rolls the current
batch back to the last committed state, stops the loop, and is swallowed. -/
def addBatches (f : List String → Option Json) (upOk : String → Bool) (now ttl : Int) :
    List (List String) → Table → List (List String) → AddResult
  | [], db, calls => ⟨db, calls, none⟩
  | batch :: rest, db, calls =>
    let needs := batch.filter fun i => needsUpdate db i now ttl
    if needs.isEmpty then addBatches f upOk now ttl rest db calls
    else
      match classifyResp (f needs) with
      | .skip => addBatches f upOk now ttl rest db (calls ++ [needs])
      | .raiseErr => ⟨db, calls ++ [needs], none⟩
      | .proceed ts =>
        match processTitles upOk now ts db with
        | .ok db2 => addBatches f upOk now ttl rest db2 (calls ++ [needs])
        | .error _ => ⟨db, calls ++ [needs], none⟩

/-- `_add_task`: chunk the ids into sub-batches of five and run the loop.
The remote fetch is modelled as the resolved response `f` for each
requested id batch (its internal retrying is the separate `fetch` model
below); the clock is held constant at `now` during the call. -/
def _add_task (f : List String → Option Json) (upOk : String → Bool) (now ttl : Int)
    (ids : List String) (db : Table) : AddResult :=
  addBatches f upOk now ttl (chunks ids 5) db []

/-! ### The retrying fetch (src/lib/imdb.py `fetch`; `fetch_sync` of
src/src/util.py is the same loop with base delay 2 and the 429 branch
folded into the raised-error branch) -/

/-- The outcome of one HTTP attempt: a decoded JSON body, a 429 rate-limit
response, or a raised requests error (transport failure, timeout, or
raise_for_status on any other non-2xx status). -/
inductive Attempt where
  | success : Json → Attempt
  | rateLimited : Attempt
  | requestError : Attempt

/-- The retry loop of `fetch`, indexed by the current attempt number and
the remaining attempts; returns the result and the backoff sleeps
performed, in order.  Both failure branches sleep `delay * 2 ^ attempt`
and retry; a success returns at once. -/
def fetchGo (att : Nat → Attempt) (delay : Rat) : Nat → Nat → Option Json × List Rat
  | _, 0 => (none, [])
  | a, n + 1 =>
    match att a with
    | .success j => (some j, [])
    | _ =>
      ((fetchGo att delay (a + 1) n).1, (delay * 2 ^ a) :: (fetchGo att delay (a + 1) n).2)

/-- `fetch(url, timeout, retries, delay)`: up to `retries` attempts,
exponential backoff, None after exhaustion — no exception escapes. -/
def fetch (att : Nat → Attempt) (retries : Nat) (delay : Rat) : Option Json × List Rat :=
  fetchGo att delay 0 retries

/-- `fetch_sync(url, timeout, retries)` of src/src/util.py: the same loop
with sleeps `2 ^ (attempt + 1)`, i.e. base delay 2. -/
def fetch_sync (att : Nat → Attempt) (retries : Nat) : Option Json × List Rat :=
  fetch att retries 2

/-! ### Lemmas about the query compiler -/

/-- On a table with pairwise distinct ids, the wildcard sub-query collapses
to a test on the data of the row itself. -/
theorem any_id_nodup (db : Table) (r : Row) (g : Json → Bool)
    (hnd : (db.map Row.id).Nodup) (hr : r ∈ db) :
    (db.any fun t => (t.id == r.id) && g t.data) = g r.data := by
  rw [Bool.eq_iff_iff, List.any_eq_true]
  constructor
  · rintro ⟨t, htdb, hteq⟩
    rw [Bool.and_eq_true, beq_iff_eq] at hteq
    obtain ⟨hid, hg⟩ := hteq
    have ht : t = r := List.inj_on_of_nodup_map hnd htdb hr hid
    rwa [← ht]
  · intro hg
    exact ⟨r, hr, by rw [Bool.and_eq_true, beq_iff_eq]; exact ⟨rfl, hg⟩⟩

/-- On a table with distinct ids, clause evaluation is a function of the
payload of the row. -/
theorem evalClause_eq_onData (db : Table) (r : Row) (c : WhereClause)
    (hnd : (db.map Row.id).Nodup) (hr : r ∈ db) :
    evalClause db r c = clauseOnData c r.data := by
  cases c with
  | plain path c => rfl
  | wildcard ap sp c =>
    exact any_id_nodup db r
      (fun d => (jsonEach d ap).any fun e => evalCond c (wildcardElemVal e sp)) hnd hr

/-- The AND / OR combination of the compiled fragments, as a function of
the payload. -/
def combineClauses (union : Bool) (cls : List WhereClause) (d : Json) : Bool :=
  if union then cls.any fun c => clauseOnData c d else cls.all fun c => clauseOnData c d

/-- Membership in a query result on a table with distinct ids: a payload is
returned exactly when some row carries it and the compiled fragments (none,
or their AND / OR combination) accept it. -/
theorem mem_query (db : Table) (qs : List (String × QValue)) (union : Bool) (d : Json)
    (hnd : (db.map Row.id).Nodup) :
    d ∈ _query_task db qs union ↔
      (∃ r ∈ db, r.data = d) ∧
        (compileQueries qs = [] ∨ combineClauses union (compileQueries qs) d = true) := by
  simp only [_query_task]
  rcases hcls : compileQueries qs with _ | ⟨c0, cls⟩
  · simp [List.mem_map]
  · simp only [List.isEmpty_cons, Bool.false_eq_true, if_false, reduceCtorEq, false_or]
    constructor
    · intro hd
      obtain ⟨r, hrf, hrd⟩ := List.mem_map.mp hd
      obtain ⟨hrdb, hP⟩ := List.mem_filter.mp hrf
      refine ⟨⟨r, hrdb, hrd⟩, ?_⟩
      subst hrd
      simp only [combineClauses]
      cases union
      · simp only [Bool.false_eq_true, if_false] at hP ⊢
        rw [List.all_eq_true] at hP ⊢
        intro c hc
        rw [← evalClause_eq_onData db r c hnd hrdb]
        exact hP c hc
      · simp only [if_true] at hP ⊢
        rw [List.any_eq_true] at hP ⊢
        obtain ⟨c, hc, hce⟩ := hP
        refine ⟨c, hc, ?_⟩
        rw [← evalClause_eq_onData db r c hnd hrdb]
        exact hce
    · rintro ⟨⟨r, hrdb, hrd⟩, hcomb⟩
      refine List.mem_map.mpr ⟨r, List.mem_filter.mpr ⟨hrdb, ?_⟩, hrd⟩
      subst hrd
      simp only [combineClauses] at hcomb
      cases union
      · simp only [Bool.false_eq_true, if_false] at hcomb ⊢
        rw [List.all_eq_true] at hcomb ⊢
        intro c hc
        rw [evalClause_eq_onData db r c hnd hrdb]
        exact hcomb c hc
      · simp only [if_true] at hcomb ⊢
        rw [List.any_eq_true] at hcomb ⊢
        obtain ⟨c, hc, hce⟩ := hcomb
        refine ⟨c, hc, ?_⟩
        rw [evalClause_eq_onData db r c hnd hrdb]
        exact hce

/-- A predicate compiles to nothing exactly when its value is None. -/
theorem compilePred_eq_none_iff (p : String × QValue) :
    compilePred p = none ↔ p.2 = QValue.vnone := by
  by_cases h : p.2 = QValue.vnone
  · simp [compilePred, h]
  · simp only [compilePred, h, if_false]
    by_cases hw : hasWildcard p.1 <;> simp [hw, h]

/-- Claim C1: for a record of the store (ids pairwise distinct, the
`genres` member an array of strings), `query(('genres[*]', 'Comedy'))`
returns the record if and only if at least one element of its genres array
contains "Comedy" case-insensitively — existential semantics over the
array elements. -/
theorem query_genres_wildcard_existential (db : Table) (r : Row) (gs : List Json)
    (hnd : (db.map Row.id).Nodup) (hr : r ∈ db)
    (hg : jsonGet r.data ["genres"] = some (Json.arr gs))
    (hstr : ∀ g ∈ gs, ∃ s, g = Json.str s) :
    r.data ∈ _query_task db [("genres[*]", QValue.vstr "Comedy")] false ↔
      ∃ s, Json.str s ∈ gs ∧ containsCI "Comedy" s = true := by
  rw [mem_query db _ false r.data hnd]
  have hcq : compileQueries [("genres[*]", QValue.vstr "Comedy")] =
      [WhereClause.wildcard "$.genres" "" (Cond.like "Comedy")] := rfl
  rw [hcq]
  simp only [reduceCtorEq, false_or, combineClauses, Bool.false_eq_true, if_false,
    List.all_cons, List.all_nil, Bool.and_true]
  rw [and_iff_right ⟨r, hr, rfl⟩]
  have hje : jsonEach r.data "$.genres" = gs := by
    have h0 : jsonEach r.data "$.genres" =
        (match jsonGet r.data ["genres"] with
          | none => []
          | some (.arr xs) => xs
          | some (.obj fs) => fs.map Prod.snd
          | some v => [v]) := rfl
    rw [h0, hg]
  have h1 : clauseOnData (WhereClause.wildcard "$.genres" "" (Cond.like "Comedy")) r.data =
      gs.any fun e => evalCond (Cond.like "Comedy") (wildcardElemVal e "") := by
    simp only [clauseOnData, hje]
  rw [h1, List.any_eq_true]
  constructor
  · rintro ⟨g, hgm, hge⟩
    obtain ⟨s, rfl⟩ := hstr g hgm
    exact ⟨s, hgm, hge⟩
  · rintro ⟨s, hsm, hc⟩
    exact ⟨Json.str s, hsm, hc⟩

/-- Witness for C1: a concrete store with one record whose genres are
Horror and Romantic Comedy; the record is returned because one element
(not all) contains the query case-insensitively. -/
theorem query_genres_wildcard_existential_witness :
    Json.obj [("genres", Json.arr [Json.str "Horror", Json.str "Romantic Comedy"])] ∈
      _query_task
        [⟨"m1", Json.obj [("genres", Json.arr [Json.str "Horror", Json.str "Romantic Comedy"])], 0⟩]
        [("genres[*]", QValue.vstr "Comedy")] false := by
  have h := query_genres_wildcard_existential
    [⟨"m1", Json.obj [("genres", Json.arr [Json.str "Horror", Json.str "Romantic Comedy"])], 0⟩]
    ⟨"m1", Json.obj [("genres", Json.arr [Json.str "Horror", Json.str "Romantic Comedy"])], 0⟩
    [Json.str "Horror", Json.str "Romantic Comedy"]
    (by simp) (List.mem_singleton.mpr rfl) rfl
    (by
      intro g hg
      rcases List.mem_cons.mp hg with rfl | hg2
      · exact ⟨"Horror", rfl⟩
      · rcases List.mem_cons.mp hg2 with rfl | hg3
        · exact ⟨"Romantic Comedy", rfl⟩
        · cases hg3)
  exact h.mpr ⟨"Romantic Comedy", List.mem_cons_of_mem _ (List.mem_cons_self _ _), by decide⟩

/-- Claim C3: the condition compiler dispatches on the shape of the query
value.  For a key without wildcard and a record of the store: a 2-tuple
value selects the record exactly when the extracted number lies in the
inclusive range, a string value exactly when the extracted text contains it
case-insensitively, an int/float value exactly on numeric equality, and any
other value shape compiles to a fragment matching no record at all, without
raising. -/
theorem condition_value_dispatch (db : Table) (k : String) (r : Row)
    (hk : hasWildcard k = false) (hnd : (db.map Row.id).Nodup) (hr : r ∈ db) :
    (∀ a b x, jsonExtract r.data ("$." ++ k) = some (Json.num x) →
      (r.data ∈ _query_task db [(k, QValue.vrange a b)] false ↔ a ≤ x ∧ x ≤ b))
    ∧ (∀ q s, jsonExtract r.data ("$." ++ k) = some (Json.str s) →
      (r.data ∈ _query_task db [(k, QValue.vstr q)] false ↔ containsCI q s = true))
    ∧ (∀ v x, jsonExtract r.data ("$." ++ k) = some (Json.num x) →
      (r.data ∈ _query_task db [(k, QValue.vnum v)] false ↔ x = v))
    ∧ _query_task db [(k, QValue.vother)] false = [] := by
  have hone : ∀ w : QValue, w ≠ QValue.vnone →
      compileQueries [(k, w)] = [WhereClause.plain ("$." ++ k) (_get_sql_condition w)] := by
    intro w hw
    simp [compileQueries, List.filterMap_cons, compilePred, hw, hk]
  have hmem : ∀ w : QValue, w ≠ QValue.vnone →
      (r.data ∈ _query_task db [(k, w)] false ↔
        evalCond (_get_sql_condition w) (toSqlVal (jsonExtract r.data ("$." ++ k))) = true) := by
    intro w hw
    rw [mem_query db _ false r.data hnd, hone w hw]
    simp only [reduceCtorEq, false_or, combineClauses, Bool.false_eq_true, if_false,
      List.all_cons, List.all_nil, Bool.and_true]
    rw [and_iff_right ⟨r, hr, rfl⟩]
    exact Iff.rfl
  refine ⟨?_, ?_, ?_, ?_⟩
  · intro a b x hx
    rw [hmem (QValue.vrange a b) (by simp), hx]
    simp [_get_sql_condition, evalCond, toSqlVal]
  · intro q s hs
    rw [hmem (QValue.vstr q) (by simp), hs]
    simp [_get_sql_condition, evalCond, toSqlVal]
  · intro v x hx
    rw [hmem (QValue.vnum v) (by simp), hx]
    simp [_get_sql_condition, evalCond, toSqlVal]
  · have hq : compileQueries [(k, QValue.vother)] =
        [WhereClause.plain ("$." ++ k) Cond.never] := by
      simpa [_get_sql_condition] using hone QValue.vother (by simp)
    simp only [_query_task, hq, List.isEmpty_cons, Bool.false_eq_true, if_false]
    have hfil : (db.filter fun r2 =>
        ([WhereClause.plain ("$." ++ k) Cond.never]).all (evalClause db r2)) = [] := by
      apply List.filter_eq_nil_iff.mpr
      intro r2 _
      simp [evalClause, evalCond]
    rw [hfil]
    rfl

/-- Witness for C3: a store holding ratings 9 and 8.9.  The range predicate
(9, 10) returns the rating-9 record (the bound is inclusive) and rejects
the rating-8.9 record; a vother-shaped value matches nothing. -/
theorem condition_value_dispatch_witness :
    (Json.obj [("rating", Json.num 9)] ∈
      _query_task
        [⟨"r1", Json.obj [("rating", Json.num 9)], 0⟩,
         ⟨"r2", Json.obj [("rating", Json.num (mkRat 89 10))], 0⟩]
        [("rating", QValue.vrange 9 10)] false)
    ∧ (Json.obj [("rating", Json.num (mkRat 89 10))] ∉
      _query_task
        [⟨"r1", Json.obj [("rating", Json.num 9)], 0⟩,
         ⟨"r2", Json.obj [("rating", Json.num (mkRat 89 10))], 0⟩]
        [("rating", QValue.vrange 9 10)] false)
    ∧ _query_task
        [⟨"r1", Json.obj [("rating", Json.num 9)], 0⟩,
         ⟨"r2", Json.obj [("rating", Json.num (mkRat 89 10))], 0⟩]
        [("rating", QValue.vother)] false = [] := by
  have h1 := condition_value_dispatch
    [⟨"r1", Json.obj [("rating", Json.num 9)], 0⟩,
     ⟨"r2", Json.obj [("rating", Json.num (mkRat 89 10))], 0⟩]
    "rating" ⟨"r1", Json.obj [("rating", Json.num 9)], 0⟩
    rfl (by simp) (List.mem_cons_self _ _)
  have h2 := condition_value_dispatch
    [⟨"r1", Json.obj [("rating", Json.num 9)], 0⟩,
     ⟨"r2", Json.obj [("rating", Json.num (mkRat 89 10))], 0⟩]
    "rating" ⟨"r2", Json.obj [("rating", Json.num (mkRat 89 10))], 0⟩
    rfl (by simp) (List.mem_cons_of_mem _ (List.mem_cons_self _ _))
  refine ⟨(h1.1 9 10 9 rfl).mpr (by constructor <;> decide), ?_, h1.2.2.2⟩
  intro hmem
  have := (h2.1 9 10 (mkRat 89 10) rfl).mp hmem
  have h9 : ¬ ((9:Rat) ≤ mkRat 89 10) := by decide
  exact h9 this.1

/-- Counterexample for C5: when one of the two predicates carries the value
None (which the compiler skips), `query(p1, p2, union=True)` is not the
union of the single-predicate results.  With one stored record, p1 skipped
and p2 unmatched, the single p1 query returns the record (no compiled
fragment means all records) while the combined union query returns nothing. -/
theorem query_union_none_counterexample :
    ¬ (∀ d, d ∈ _query_task [⟨"t1", Json.obj [("title", Json.str "Alpha")], 0⟩]
          [("title", QValue.vnone), ("title", QValue.vstr "zzz")] true ↔
        d ∈ _query_task [⟨"t1", Json.obj [("title", Json.str "Alpha")], 0⟩]
          [("title", QValue.vnone)] false ∨
        d ∈ _query_task [⟨"t1", Json.obj [("title", Json.str "Alpha")], 0⟩]
          [("title", QValue.vstr "zzz")] false) := by
  intro h
  have h1 : Json.obj [("title", Json.str "Alpha")] ∈
      _query_task [⟨"t1", Json.obj [("title", Json.str "Alpha")], 0⟩]
        [("title", QValue.vnone)] false := by
    rw [show _query_task [⟨"t1", Json.obj [("title", Json.str "Alpha")], 0⟩]
        [("title", QValue.vnone)] false = [Json.obj [("title", Json.str "Alpha")]] from rfl]
    exact List.mem_singleton.mpr rfl
  have h2 := (h (Json.obj [("title", Json.str "Alpha")])).mpr (Or.inl h1)
  rw [show _query_task [⟨"t1", Json.obj [("title", Json.str "Alpha")], 0⟩]
      [("title", QValue.vnone), ("title", QValue.vstr "zzz")] true = [] from rfl] at h2
  cases h2

/-- Claim C5 as amended: on a store with pairwise distinct ids,
`query(p1, p2, union=False)` is exactly the intersection of the
single-predicate results for every pair of predicates (a None value acts
as the always-true constraint there), and `query(p1, p2, union=True)` is
exactly the union of the single-predicate results provided neither value
is None — a skipped predicate drops out of the OR instead of contributing
its full match set. -/
theorem query_pair_combinator (db : Table) (p1 p2 : String × QValue)
    (hnd : (db.map Row.id).Nodup) :
    (∀ d, d ∈ _query_task db [p1, p2] false ↔
      d ∈ _query_task db [p1] false ∧ d ∈ _query_task db [p2] false)
    ∧ (p1.2 ≠ QValue.vnone → p2.2 ≠ QValue.vnone →
      ∀ d, d ∈ _query_task db [p1, p2] true ↔
        d ∈ _query_task db [p1] false ∨ d ∈ _query_task db [p2] false) := by
  constructor
  · intro d
    rw [mem_query db _ false d hnd, mem_query db _ false d hnd, mem_query db _ false d hnd]
    rcases hc1 : compilePred p1 with _ | c1 <;> rcases hc2 : compilePred p2 with _ | c2 <;>
      simp only [compileQueries, List.filterMap_cons, List.filterMap_nil, hc1, hc2] <;>
      simp only [combineClauses, Bool.false_eq_true, if_false, List.all_cons, List.all_nil,
        Bool.and_true, Bool.and_eq_true] <;>
      tauto
  · intro hn1 hn2 d
    rcases hc1 : compilePred p1 with _ | c1
    · exact absurd ((compilePred_eq_none_iff p1).mp hc1) hn1
    rcases hc2 : compilePred p2 with _ | c2
    · exact absurd ((compilePred_eq_none_iff p2).mp hc2) hn2
    rw [mem_query db _ true d hnd, mem_query db _ false d hnd, mem_query db _ false d hnd]
    simp only [compileQueries, List.filterMap_cons, List.filterMap_nil, hc1, hc2]
    simp only [combineClauses, Bool.false_eq_true, if_false, if_true, List.all_cons,
      List.all_nil, List.any_cons, List.any_nil, Bool.and_true, Bool.or_false,
      Bool.and_eq_true, Bool.or_eq_true, reduceCtorEq, false_or]
    constructor
    · rintro ⟨hE, h1 | h2⟩
      · exact Or.inl ⟨hE, h1⟩
      · exact Or.inr ⟨hE, h2⟩
    · rintro (⟨hE, h1⟩ | ⟨hE, h2⟩)
      · exact ⟨hE, Or.inl h1⟩
      · exact ⟨hE, Or.inr h2⟩

/-- Witness for C5 (amended): two concrete non-None predicates on a
two-record store, one record matched by each predicate; the AND query is
their intersection (empty) and the OR query is their union. -/
theorem query_pair_combinator_witness :
    (∀ d, d ∈ _query_task
        [⟨"t1", Json.obj [("title", Json.str "Alpha")], 0⟩,
         ⟨"t2", Json.obj [("title", Json.str "Beta")], 0⟩]
        [("title", QValue.vstr "Alpha"), ("title", QValue.vstr "Beta")] false ↔
      d ∈ _query_task
        [⟨"t1", Json.obj [("title", Json.str "Alpha")], 0⟩,
         ⟨"t2", Json.obj [("title", Json.str "Beta")], 0⟩]
        [("title", QValue.vstr "Alpha")] false ∧
      d ∈ _query_task
        [⟨"t1", Json.obj [("title", Json.str "Alpha")], 0⟩,
         ⟨"t2", Json.obj [("title", Json.str "Beta")], 0⟩]
        [("title", QValue.vstr "Beta")] false)
    ∧ (∀ d, d ∈ _query_task
        [⟨"t1", Json.obj [("title", Json.str "Alpha")], 0⟩,
         ⟨"t2", Json.obj [("title", Json.str "Beta")], 0⟩]
        [("title", QValue.vstr "Alpha"), ("title", QValue.vstr "Beta")] true ↔
      d ∈ _query_task
        [⟨"t1", Json.obj [("title", Json.str "Alpha")], 0⟩,
         ⟨"t2", Json.obj [("title", Json.str "Beta")], 0⟩]
        [("title", QValue.vstr "Alpha")] false ∨
      d ∈ _query_task
        [⟨"t1", Json.obj [("title", Json.str "Alpha")], 0⟩,
         ⟨"t2", Json.obj [("title", Json.str "Beta")], 0⟩]
        [("title", QValue.vstr "Beta")] false) := by
  have h := query_pair_combinator
    [⟨"t1", Json.obj [("title", Json.str "Alpha")], 0⟩,
     ⟨"t2", Json.obj [("title", Json.str "Beta")], 0⟩]
    ("title", QValue.vstr "Alpha") ("title", QValue.vstr "Beta") (by simp)
  exact ⟨h.1, h.2 (by simp) (by simp)⟩

/-- Claim C6: with no predicates, and more generally whenever every
supplied predicate carries the value None (meaning: skip it), the query
returns exactly all stored records. -/
theorem query_all_skipped (db : Table) (qs : List (String × QValue)) (union : Bool)
    (h : ∀ p ∈ qs, p.2 = QValue.vnone) :
    _query_task db qs union = db.map (·.data) := by
  have hcls : compileQueries qs = [] :=
    List.filterMap_eq_nil_iff.mpr fun p hp => (compilePred_eq_none_iff p).mpr (h p hp)
  simp [_query_task, hcls]

/-- Witness for C6: the empty predicate list and an all-None predicate
list both return every stored payload of a concrete two-record store. -/
theorem query_all_skipped_witness :
    _query_task
      [⟨"t1", Json.obj [("title", Json.str "Alpha")], 0⟩,
       ⟨"t2", Json.obj [("title", Json.str "Beta")], 0⟩] [] false =
      [Json.obj [("title", Json.str "Alpha")], Json.obj [("title", Json.str "Beta")]]
    ∧ _query_task
      [⟨"t1", Json.obj [("title", Json.str "Alpha")], 0⟩,
       ⟨"t2", Json.obj [("title", Json.str "Beta")], 0⟩]
      [("title", QValue.vnone), ("year", QValue.vnone)] true =
      [Json.obj [("title", Json.str "Alpha")], Json.obj [("title", Json.str "Beta")]] := by
  constructor
  · rw [query_all_skipped _ _ _ (by simp)]
    rfl
  · rw [query_all_skipped _ _ _ (by
      intro p hp
      rcases List.mem_cons.mp hp with rfl | hp2
      · rfl
      · rcases List.mem_cons.mp hp2 with rfl | hp3
        · rfl
        · cases hp3)]
    rfl

/-- Claim C10: when the underlying SQLite work raises inside the query,
count, or autocomplete task, the blanket except block swallows the
exception (logs, rolls back) and the public call returns None instead of
the declared list, integer, or mapping. -/
theorem task_exception_returns_none (e : String) (qs : List (String × QValue)) (union : Bool)
    (q key : String) (n : Nat) (post : Option (String → String)) :
    queryTaskRun (Except.error e) qs union = none
    ∧ countTaskRun (Except.error e) = none
    ∧ autocompleteTaskRun (Except.error e) q key n post = none :=
  ⟨rfl, rfl, rfl⟩

/-- Claim C8, evaluation at the failing input: for a wildcard key with a
sub-path, the `WHERE value LIKE ?` filter resolves `value` to the real
value column of json_each (SQLite resolves unqualified names against the
FROM sources before result aliases), i.e. to the JSON text of the whole
array element, not to the aliased sub-path extraction that is selected.
On a store whose single record has one director with displayName Bob and
id nm_com, `autocomplete('com', 'directors[*].displayName', n=5)` returns
the entry Bob — which does not contain the query — because "com" occurs
in the JSON text of the element.  The docstring ("Get top n matching
values for a given key") and the alias pattern of the non-wildcard branch
show the filter was intended to apply to the selected value. -/
theorem autocomplete_subpath_filter_mismatch :
    _autocomplete_task
      [⟨"m1", Json.obj [("directors",
        Json.arr [Json.obj [("displayName", Json.str "Bob"), ("id", Json.str "nm_com")]])], 0⟩]
      "com" "directors[*].displayName" 5 none = some [(SqlVal.text "Bob", SqlVal.text "Bob")]
    ∧ containsCI "com" "Bob" = false :=
  ⟨rfl, rfl⟩

/-- Counterexample for C4: a malformed payload item (a title object
without the type member) raises a KeyError inside the loop; the blanket
except block catches it, rolls the current sub-batch back and leaves the
function, so the remaining sub-batches are never processed.  With six ids
(two sub-batches) and a response whose single title item lacks the type
member, only the first sub-batch is ever fetched, nothing is committed,
and the second sub-batch ["i6"] — although it needs a refresh — never
appears among the issued calls. -/
theorem add_bad_item_aborts_siblings :
    _add_task (fun _ => some (Json.obj [("titles", Json.arr [Json.obj [("id", Json.str "i1")]])]))
      (fun _ => true) 100 10 ["i1", "i2", "i3", "i4", "i5", "i6"] [] =
      ⟨[], [["i1", "i2", "i3", "i4", "i5"]], none⟩
    ∧ ["i6"] ∉ (_add_task
        (fun _ => some (Json.obj [("titles", Json.arr [Json.obj [("id", Json.str "i1")]])]))
        (fun _ => true) 100 10 ["i1", "i2", "i3", "i4", "i5", "i6"] []).calls := by
  refine ⟨rfl, ?_⟩
  intro hmem
  rw [show (_add_task
      (fun _ => some (Json.obj [("titles", Json.arr [Json.obj [("id", Json.str "i1")]])]))
      (fun _ => true) 100 10 ["i1", "i2", "i3", "i4", "i5", "i6"] []).calls =
      [["i1", "i2", "i3", "i4", "i5"]] from rfl] at hmem
  have hne : (["i6"] : List String) ≠ ["i1", "i2", "i3", "i4", "i5"] := by decide
  exact hne (List.mem_singleton.mp hmem)

/-- Counterexample for C9: a storage error during the upsert of a
sub-batch is not surfaced to the caller.  With a well-formed movie
response and an upsert oracle that fails, `_add_task` rolls the batch back
(the table stays empty) and returns with `escaped = none` — the same
success-shaped result as a skipped batch; the third conjunct shows the
identical call with working storage commits the row, so a storage failure
really occurred in the first run.  The claim, which says the failure is
surfaced to the caller as a cache-write failure, is false on this input. -/
theorem add_storage_error_not_surfaced :
    (_add_task (fun _ => some (Json.obj [("titles",
        Json.arr [Json.obj [("type", Json.str "movie"), ("id", Json.str "a")]])]))
      (fun _ => false) 100 10 ["a"] []).escaped = none
    ∧ _add_task (fun _ => some (Json.obj [("titles",
        Json.arr [Json.obj [("type", Json.str "movie"), ("id", Json.str "a")]])]))
      (fun _ => false) 100 10 ["a"] [] = ⟨[], [["a"]], none⟩
    ∧ _add_task (fun _ => some (Json.obj [("titles",
        Json.arr [Json.obj [("type", Json.str "movie"), ("id", Json.str "a")]])]))
      (fun _ => true) 100 10 ["a"] [] =
      ⟨[⟨"a", Json.obj [("type", Json.str "movie"), ("id", Json.str "a")], 100⟩], [["a"]], none⟩ :=
  ⟨rfl, rfl, rfl⟩

/-! ### Lemmas about the retrying fetch -/

/-- Shifting the exponential backoff schedule by one attempt. -/
theorem range_pow_shift (delay : Rat) (a n : Nat) :
    delay * 2 ^ a :: ((List.range n).map fun m => delay * 2 ^ (a + 1 + m)) =
      (List.range (n + 1)).map fun m => delay * 2 ^ (a + m) := by
  rw [List.range_succ_eq_map, List.map_cons, List.map_map]
  have hfun : ((fun m => delay * 2 ^ (a + m)) ∘ Nat.succ) = fun m => delay * 2 ^ (a + 1 + m) := by
    funext m
    simp only [Function.comp_apply, Nat.succ_eq_add_one]
    ring
  rw [hfun]
  simp

/-- When every attempt fails, the loop performs the whole backoff schedule
and yields None. -/
theorem fetchGo_all_fail (att : Nat → Attempt) (delay : Rat) :
    ∀ (n a : Nat), (∀ m, m < n → ∀ j, att (a + m) ≠ Attempt.success j) →
    fetchGo att delay a n = (none, (List.range n).map fun m => delay * 2 ^ (a + m)) := by
  intro n
  induction n with
  | zero => intro a _; rfl
  | succ n ih =>
    intro a h
    have h0 : ∀ j, att a ≠ Attempt.success j := by
      intro j
      have := h 0 (Nat.succ_pos n) j
      simpa using this
    have hs : ∀ m, m < n → ∀ j, att (a + 1 + m) ≠ Attempt.success j := by
      intro m hm j
      have h2 := h (m + 1) (by omega) j
      have he : a + (m + 1) = a + 1 + m := by omega
      rwa [he] at h2
    rcases hatt : att a with j | - | -
    · exact absurd hatt (h0 j)
    all_goals
      have hred : fetchGo att delay a (n + 1) =
          ((fetchGo att delay (a + 1) n).1, (delay * 2 ^ a) :: (fetchGo att delay (a + 1) n).2) := by
        simp only [fetchGo, hatt]
    all_goals
      rw [hred, ih (a + 1) hs]
      exact Prod.ext rfl (range_pow_shift delay a n)

/-- When the first success is at attempt `k` (zero-based, within the
budget), the loop returns that body after exactly the backoff sleeps of
the first `k` attempts. -/
theorem fetchGo_first_success (att : Nat → Attempt) (delay : Rat) (j : Json) :
    ∀ (k a n : Nat), k < n → att (a + k) = Attempt.success j →
    (∀ m, m < k → ∀ j2, att (a + m) ≠ Attempt.success j2) →
    fetchGo att delay a n = (some j, (List.range k).map fun m => delay * 2 ^ (a + m)) := by
  intro k
  induction k with
  | zero =>
    intro a n hk hsucc _
    obtain ⟨n2, rfl⟩ : ∃ n2, n = n2 + 1 := ⟨n - 1, by omega⟩
    have ha : att a = Attempt.success j := by simpa using hsucc
    simp [fetchGo, ha]
  | succ k ih =>
    intro a n hk hsucc hfail
    obtain ⟨n2, rfl⟩ : ∃ n2, n = n2 + 1 := ⟨n - 1, by omega⟩
    have h0 : ∀ j2, att a ≠ Attempt.success j2 := by
      intro j2
      have := hfail 0 (Nat.succ_pos k) j2
      simpa using this
    have hsucc2 : att (a + 1 + k) = Attempt.success j := by
      have he : a + (k + 1) = a + 1 + k := by omega
      rwa [he] at hsucc
    have hfail2 : ∀ m, m < k → ∀ j2, att (a + 1 + m) ≠ Attempt.success j2 := by
      intro m hm j2
      have h2 := hfail (m + 1) (by omega) j2
      have he : a + (m + 1) = a + 1 + m := by omega
      rwa [he] at h2
    rcases hatt : att a with j2 | - | -
    · exact absurd hatt (h0 j2)
    all_goals
      have hred : fetchGo att delay a (n2 + 1) =
          ((fetchGo att delay (a + 1) n2).1, (delay * 2 ^ a) :: (fetchGo att delay (a + 1) n2).2) := by
        simp only [fetchGo, hatt]
    all_goals
      rw [hred, ih (a + 1) n2 (by omega) hsucc2 hfail2]
      exact Prod.ext rfl (range_pow_shift delay a k)

/-- Claim C7: if the first `k` attempts fail (transport errors or 429) and
attempt `k + 1` succeeds within the retry budget, fetch returns the
successful JSON body after sleeping `delay * 2 ^ attempt` before each
retry; if every attempt fails, fetch returns the typed failure None after
the full backoff schedule instead of letting an exception escape. -/
theorem fetch_backoff_retry (att : Nat → Attempt) (retries : Nat) (delay : Rat) :
    (∀ k j, k < retries → att k = Attempt.success j →
      (∀ m, m < k → ∀ j2, att m ≠ Attempt.success j2) →
      fetch att retries delay = (some j, (List.range k).map fun m => delay * 2 ^ m))
    ∧ ((∀ m, m < retries → ∀ j, att m ≠ Attempt.success j) →
      fetch att retries delay = (none, (List.range retries).map fun m => delay * 2 ^ m)) := by
  constructor
  · intro k j hk hs hf
    have h := fetchGo_first_success att delay j k 0 retries hk (by simpa using hs)
      (by intro m hm j2; simpa using hf m hm j2)
    rw [fetch, h]
    simp only [Nat.zero_add]
  · intro hf
    have h := fetchGo_all_fail att delay retries 0
      (by intro m hm j; simpa using hf m hm j)
    rw [fetch, h]
    simp only [Nat.zero_add]

/-- Witness for C7: attempts 1 through 4 are rate-limited and attempt 5
succeeds within a budget of 5 retries; the body is returned and the
sleeps are the base-2 exponential schedule of the four failed attempts. -/
theorem fetch_backoff_retry_witness :
    fetch (fun n => if n = 4 then Attempt.success Json.null else Attempt.rateLimited) 5 2 =
      (some Json.null, (List.range 4).map fun m => (2 : Rat) * 2 ^ m) := by
  refine (fetch_backoff_retry
    (fun n => if n = 4 then Attempt.success Json.null else Attempt.rateLimited) 5 2).1
    4 Json.null (by omega) (by simp) ?_
  intro m hm j2 hj
  rw [if_neg (by omega)] at hj
  cases hj

/-! ### Lemmas about the add loop -/

/-- Replacing the row of a different id leaves a lookup unchanged. -/
theorem find?_id_map_upsert (db : Table) (s i : String) (d : Json) (ts : Int) (h : s ≠ i) :
    (db.map fun r => if r.id == s then (⟨s, d, ts⟩ : Row) else r).find? (fun r => r.id == i) =
      db.find? (fun r => r.id == i) := by
  induction db with
  | nil => rfl
  | cons r t ih =>
    rw [List.map_cons]
    by_cases hrs : r.id = s
    · have hif : (if (r.id == s) then (⟨s, d, ts⟩ : Row) else r) = ⟨s, d, ts⟩ := by simp [hrs]
      rw [hif, List.find?_cons, List.find?_cons]
      have h1 : ((⟨s, d, ts⟩ : Row).id == i) = false := by simpa using h
      have h2 : (r.id == i) = false := by
        simp only [beq_eq_false_iff_ne, ne_eq, hrs]
        exact h
      rw [h1, h2]
      exact ih
    · have hif : (if (r.id == s) then (⟨s, d, ts⟩ : Row) else r) = r := by simp [hrs]
      rw [hif, List.find?_cons, List.find?_cons]
      by_cases hri : r.id = i
      · rw [show (r.id == i) = true by simpa using hri]
      · rw [show (r.id == i) = false by simpa using hri]
        exact ih

/-- Upserting one id leaves the lookup of any other id unchanged. -/
theorem rowLookup_upsert_ne (db : Table) (s i : String) (d : Json) (ts : Int) (h : s ≠ i) :
    rowLookup (upsert db s d ts) i = rowLookup db i := by
  unfold upsert rowLookup
  by_cases hex : (db.any fun r => r.id == s) = true
  · rw [if_pos hex]
    exact find?_id_map_upsert db s i d ts h
  · rw [if_neg hex, List.find?_append]
    have hone : ([(⟨s, d, ts⟩ : Row)].find? fun r => r.id == i) = none := by
      simp [h]
    rw [hone]
    exact Option.or_none

/-- A successful run of the title loop never touches the lookup of an id
that none of the title items carries. -/
theorem processTitles_lookup (upOk : String → Bool) (now : Int) :
    ∀ (ts : List Json) (db db2 : Table) (i : String),
    processTitles upOk now ts db = Except.ok db2 →
    (∀ t ∈ ts, ∀ fs, t = Json.obj fs → ∀ s, List.lookup "id" fs = some (Json.str s) → s ≠ i) →
    rowLookup db2 i = rowLookup db i := by
  intro ts
  induction ts with
  | nil =>
    intro db db2 i hok _
    simp only [processTitles] at hok
    cases hok
    rfl
  | cons t ts2 ih =>
    intro db db2 i hok hids
    have hids2 : ∀ t2 ∈ ts2, ∀ fs, t2 = Json.obj fs →
        ∀ s, List.lookup "id" fs = some (Json.str s) → s ≠ i :=
      fun t2 ht2 => hids t2 (List.mem_cons_of_mem t ht2)
    cases t with
    | obj fs =>
      simp only [processTitles] at hok
      split at hok
      · cases hok
      · split at hok
        · split at hok
          · cases hok
          · split at hok
            · rename_i ty hty s hid hup
              have hs : s ≠ i :=
                hids (Json.obj fs) (List.mem_cons_self _ _) fs rfl s hid
              rw [ih (upsert db s (Json.obj fs) now) db2 i hok hids2]
              exact rowLookup_upsert_ne db s i (Json.obj fs) now hs
            · cases hok
          · cases hok
        · exact ih db db2 i hok hids2
    | null => simp only [processTitles] at hok; cases hok
    | bool b => simp only [processTitles] at hok; cases hok
    | num q => simp only [processTitles] at hok; cases hok
    | str s => simp only [processTitles] at hok; cases hok
    | arr xs => simp only [processTitles] at hok; cases hok

/-- The contract of the remote batch endpoint (section 6 of the spec): a
response only ever carries title items whose id is one of the requested
ids.  Stated on the embedding: whenever a response classifies as
processable, every title object with a string id names a requested id. -/
def RespectsRequest (f : List String → Option Json) : Prop :=
  ∀ req ts, classifyResp (f req) = RespClass.proceed ts →
    ∀ t ∈ ts, ∀ fs, t = Json.obj fs →
      ∀ s, List.lookup "id" fs = some (Json.str s) → s ∈ req

/-- Step equation: a sub-batch with nothing to refresh is skipped without
a remote call. -/
theorem addBatches_step_none (f : List String → Option Json) (upOk : String → Bool)
    (now ttl : Int) (batch : List String) (rest : List (List String)) (db : Table)
    (calls : List (List String))
    (hemp : ((batch.filter fun x => needsUpdate db x now ttl).isEmpty) = true) :
    addBatches f upOk now ttl (batch :: rest) db calls =
      addBatches f upOk now ttl rest db calls := by
  simp only [addBatches, hemp, if_true]

/-- Step equation: a malformed response is logged and the sub-batch
skipped; the loop continues. -/
theorem addBatches_step_skip (f : List String → Option Json) (upOk : String → Bool)
    (now ttl : Int) (batch : List String) (rest : List (List String)) (db : Table)
    (calls : List (List String))
    (hemp : ((batch.filter fun x => needsUpdate db x now ttl).isEmpty) = false)
    (hcr : classifyResp (f (batch.filter fun x => needsUpdate db x now ttl)) = RespClass.skip) :
    addBatches f upOk now ttl (batch :: rest) db calls =
      addBatches f upOk now ttl rest db
        (calls ++ [batch.filter fun x => needsUpdate db x now ttl]) := by
  simp only [addBatches, hemp, hcr, Bool.false_eq_true, if_false]

/-- Step equation: a response on which the Python guard itself raises
aborts the loop; the exception is swallowed. -/
theorem addBatches_step_raise (f : List String → Option Json) (upOk : String → Bool)
    (now ttl : Int) (batch : List String) (rest : List (List String)) (db : Table)
    (calls : List (List String))
    (hemp : ((batch.filter fun x => needsUpdate db x now ttl).isEmpty) = false)
    (hcr : classifyResp (f (batch.filter fun x => needsUpdate db x now ttl)) = RespClass.raiseErr) :
    addBatches f upOk now ttl (batch :: rest) db calls =
      ⟨db, calls ++ [batch.filter fun x => needsUpdate db x now ttl], none⟩ := by
  simp only [addBatches, hemp, hcr, Bool.false_eq_true, if_false]

/-- Step equation: a processable response whose title loop succeeds is
committed and the loop continues on the committed table. -/
theorem addBatches_step_ok (f : List String → Option Json) (upOk : String → Bool)
    (now ttl : Int) (batch : List String) (rest : List (List String)) (db db2 : Table)
    (calls : List (List String)) (ts : List Json)
    (hemp : ((batch.filter fun x => needsUpdate db x now ttl).isEmpty) = false)
    (hcr : classifyResp (f (batch.filter fun x => needsUpdate db x now ttl)) =
      RespClass.proceed ts)
    (hpt : processTitles upOk now ts db = Except.ok db2) :
    addBatches f upOk now ttl (batch :: rest) db calls =
      addBatches f upOk now ttl rest db2
        (calls ++ [batch.filter fun x => needsUpdate db x now ttl]) := by
  simp only [addBatches, hemp, hcr, hpt, Bool.false_eq_true, if_false]

/-- Step equation: an exception inside the title loop (bad payload item or
storage error) rolls the batch back to the last committed state, stops the
loop, and is swallowed. -/
theorem addBatches_step_error (f : List String → Option Json) (upOk : String → Bool)
    (now ttl : Int) (batch : List String) (rest : List (List String)) (db : Table)
    (calls : List (List String)) (ts : List Json) (e : Unit)
    (hemp : ((batch.filter fun x => needsUpdate db x now ttl).isEmpty) = false)
    (hcr : classifyResp (f (batch.filter fun x => needsUpdate db x now ttl)) =
      RespClass.proceed ts)
    (hpt : processTitles upOk now ts db = Except.error e) :
    addBatches f upOk now ttl (batch :: rest) db calls =
      ⟨db, calls ++ [batch.filter fun x => needsUpdate db x now ttl], none⟩ := by
  simp only [addBatches, hemp, hcr, hpt, Bool.false_eq_true, if_false]

/-- Invariant of the batch loop under the remote contract: an id that is
fresh at entry keeps its row untouched, and every newly recorded call
avoids it. -/
theorem addBatches_fresh (f : List String → Option Json) (upOk : String → Bool)
    (now ttl : Int) (i : String) (hc : RespectsRequest f) :
    ∀ (batches : List (List String)) (db : Table) (calls : List (List String)),
    needsUpdate db i now ttl = false →
    rowLookup ((addBatches f upOk now ttl batches db calls).db) i = rowLookup db i
    ∧ (∀ c ∈ (addBatches f upOk now ttl batches db calls).calls, c ∈ calls ∨ i ∉ c) := by
  intro batches
  induction batches with
  | nil =>
    intro db calls _
    exact ⟨rfl, fun c hcm => Or.inl hcm⟩
  | cons batch rest ih =>
    intro db calls hfresh
    have hinotin : i ∉ batch.filter fun x => needsUpdate db x now ttl := by
      intro hmem
      have hbad := (List.mem_filter.mp hmem).2
      rw [hfresh] at hbad
      cases hbad
    have hnewc : ∀ c ∈ calls ++ [batch.filter fun x => needsUpdate db x now ttl],
        c ∈ calls ∨ i ∉ c := by
      intro c hcm
      rcases List.mem_append.mp hcm with h3 | h3
      · exact Or.inl h3
      · right
        rw [List.mem_singleton.mp h3]
        exact hinotin
    cases hemp : ((batch.filter fun x => needsUpdate db x now ttl).isEmpty) with
    | true =>
      rw [addBatches_step_none f upOk now ttl batch rest db calls hemp]
      exact ih db calls hfresh
    | false =>
      cases hcr : classifyResp (f (batch.filter fun x => needsUpdate db x now ttl)) with
      | skip =>
        rw [addBatches_step_skip f upOk now ttl batch rest db calls hemp hcr]
        have h2 := ih db (calls ++ [batch.filter fun x => needsUpdate db x now ttl]) hfresh
        refine ⟨h2.1, fun c hcm => ?_⟩
        rcases h2.2 c hcm with hcc | hni
        · exact hnewc c hcc
        · exact Or.inr hni
      | raiseErr =>
        rw [addBatches_step_raise f upOk now ttl batch rest db calls hemp hcr]
        exact ⟨rfl, hnewc⟩
      | proceed ts =>
        cases hpt : processTitles upOk now ts db with
        | ok db2 =>
          rw [addBatches_step_ok f upOk now ttl batch rest db db2 calls ts hemp hcr hpt]
          have hlk : rowLookup db2 i = rowLookup db i := by
            apply processTitles_lookup upOk now ts db db2 i hpt
            intro t ht fs hfs s hid hsi
            subst hsi
            exact hinotin (hc _ ts hcr t ht fs hfs s hid)
          have hfresh2 : needsUpdate db2 i now ttl = false := by
            unfold needsUpdate at hfresh ⊢
            rw [hlk]
            exact hfresh
          have h2 := ih db2 (calls ++ [batch.filter fun x => needsUpdate db x now ttl]) hfresh2
          refine ⟨h2.1.trans hlk, fun c hcm => ?_⟩
          rcases h2.2 c hcm with hcc | hni
          · exact hnewc c hcc
          · exact Or.inr hni
        | error e =>
          rw [addBatches_step_error f upOk now ttl batch rest db calls ts e hemp hcr hpt]
          exact ⟨rfl, hnewc⟩

/-- When no id of any sub-batch needs a refresh, the loop walks every
sub-batch without touching the store and without issuing any call. -/
theorem addBatches_no_needs (f : List String → Option Json) (upOk : String → Bool)
    (now ttl : Int) :
    ∀ (batches : List (List String)) (db : Table) (calls : List (List String)),
    (∀ b ∈ batches, ∀ j ∈ b, needsUpdate db j now ttl = false) →
    addBatches f upOk now ttl batches db calls = ⟨db, calls, none⟩ := by
  intro batches
  induction batches with
  | nil => intro db calls _; rfl
  | cons batch rest ih =>
    intro db calls hall
    have hnil : (batch.filter fun x => needsUpdate db x now ttl) = [] := by
      apply List.filter_eq_nil_iff.mpr
      intro j hj
      rw [hall batch (List.mem_cons_self _ _) j hj]
      exact Bool.false_ne_true
    rw [addBatches_step_none f upOk now ttl batch rest db calls (by rw [hnil]; rfl)]
    exact ih db calls (fun b hb => hall b (List.mem_cons_of_mem _ hb))

/-- Every call the loop records is a non-empty id batch: a sub-batch in
which nothing needs a refresh is skipped without a remote call. -/
theorem addBatches_calls_nonempty (f : List String → Option Json) (upOk : String → Bool)
    (now ttl : Int) :
    ∀ (batches : List (List String)) (db : Table) (calls : List (List String)),
    (∀ c ∈ calls, c ≠ []) →
    ∀ c ∈ (addBatches f upOk now ttl batches db calls).calls, c ≠ [] := by
  intro batches
  induction batches with
  | nil => intro db calls hcalls; exact hcalls
  | cons batch rest ih =>
    intro db calls hcalls
    cases hemp : ((batch.filter fun x => needsUpdate db x now ttl).isEmpty) with
    | true =>
      rw [addBatches_step_none f upOk now ttl batch rest db calls hemp]
      exact ih db calls hcalls
    | false =>
      have hne : (batch.filter fun x => needsUpdate db x now ttl) ≠ [] := by
        intro h0
        rw [h0] at hemp
        cases hemp
      have hcalls2 : ∀ c ∈ calls ++ [batch.filter fun x => needsUpdate db x now ttl], c ≠ [] := by
        intro c hcm
        rcases List.mem_append.mp hcm with h3 | h3
        · exact hcalls c h3
        · rw [List.mem_singleton.mp h3]
          exact hne
      cases hcr : classifyResp (f (batch.filter fun x => needsUpdate db x now ttl)) with
      | skip =>
        rw [addBatches_step_skip f upOk now ttl batch rest db calls hemp hcr]
        exact ih db _ hcalls2
      | raiseErr =>
        rw [addBatches_step_raise f upOk now ttl batch rest db calls hemp hcr]
        exact hcalls2
      | proceed ts =>
        cases hpt : processTitles upOk now ts db with
        | ok db2 =>
          rw [addBatches_step_ok f upOk now ttl batch rest db db2 calls ts hemp hcr hpt]
          exact ih db2 _ hcalls2
        | error e =>
          rw [addBatches_step_error f upOk now ttl batch rest db calls ts e hemp hcr hpt]
          exact hcalls2

/-- Elements of the sub-batches produced by the chunking helper come from
the input list. -/
theorem chunksGo_mem_subset (n : Nat) :
    ∀ (fuel : Nat) (l c : List String), c ∈ chunksGo n fuel l → ∀ x ∈ c, x ∈ l := by
  intro fuel
  induction fuel with
  | zero =>
    intro l c hc
    cases l with
    | nil => cases hc
    | cons a t => cases hc
  | succ fuel ih =>
    intro l c hc x hx
    cases l with
    | nil => cases hc
    | cons a t =>
      rcases List.mem_cons.mp hc with rfl | hrest
      · exact List.take_subset n (a :: t) hx
      · exact List.drop_subset n (a :: t) (ih ((a :: t).drop n) c hrest x hx)

/-- Claim C2: under the remote contract, an id that is present and fresher
than the TTL when add is called is never part of an issued remote call and
its stored payload and last_updated stay unchanged; a sub-batch in which
no id needs a refresh issues no remote call (every recorded call is a
non-empty batch of stale ids, and if nothing at all needs a refresh the
whole call does nothing and fetches nothing). -/
theorem add_fresh_id_untouched (f : List String → Option Json) (upOk : String → Bool)
    (now ttl : Int) (ids : List String) (db : Table) (i : String)
    (hc : RespectsRequest f) (hfresh : needsUpdate db i now ttl = false) :
    (∀ c ∈ (_add_task f upOk now ttl ids db).calls, i ∉ c)
    ∧ rowLookup ((_add_task f upOk now ttl ids db).db) i = rowLookup db i
    ∧ ((∀ j ∈ ids, needsUpdate db j now ttl = false) →
        _add_task f upOk now ttl ids db = ⟨db, [], none⟩)
    ∧ (∀ c ∈ (_add_task f upOk now ttl ids db).calls, c ≠ []) := by
  have h := addBatches_fresh f upOk now ttl i hc (chunks ids 5) db [] hfresh
  refine ⟨?_, h.1, ?_, ?_⟩
  · intro c hcm hic
    rcases h.2 c hcm with hcc | hni
    · cases hcc
    · exact hni hic
  · intro hall
    apply addBatches_no_needs
    intro b hb j hj
    have hchunks : chunks ids 5 = chunksGo 5 ids.length ids := rfl
    rw [hchunks] at hb
    exact hall j (chunksGo_mem_subset 5 ids.length ids b hb j hj)
  · exact addBatches_calls_nonempty f upOk now ttl (chunks ids 5) db []
      (fun c hc2 => absurd hc2 (List.not_mem_nil c))

/-- Witness for C2: a store holding a fresh id (age 10, ttl 50) and a call
on that id plus a missing one; the fresh row is untouched and only the
stale id is fetched (the oracle answering None satisfies the contract
vacuously). -/
theorem add_fresh_id_untouched_witness :
    rowLookup ((_add_task (fun _ => none) (fun _ => true) 100 50 ["a", "b"]
        [⟨"a", Json.null, 90⟩]).db) "a" = rowLookup [⟨"a", Json.null, 90⟩] "a"
    ∧ (∀ c ∈ (_add_task (fun _ => none) (fun _ => true) 100 50 ["a", "b"]
        [⟨"a", Json.null, 90⟩]).calls, "a" ∉ c) := by
  have h := add_fresh_id_untouched (fun _ => none) (fun _ => true) 100 50 ["a", "b"]
    [⟨"a", Json.null, 90⟩] "a"
    (by
      intro req ts hpr
      rw [show classifyResp none = RespClass.skip from rfl] at hpr
      cases hpr)
    (by decide)
  exact ⟨h.2.1, h.1⟩

/-- The oracle `f` with the response for the batch `b` replaced by a
well-formed response carrying no titles at all. -/
def overrideResp (f : List String → Option Json) (b : List String) :
    List String → Option Json :=
  fun req => if req = b then some (Json.obj [("titles", Json.arr [])]) else f req

/-- A malformed response behaves exactly like a successful response with
an empty title list: both leave the store untouched for that sub-batch and
let the loop continue. -/
theorem addBatches_override (f : List String → Option Json) (upOk : String → Bool)
    (now ttl : Int) (b : List String) (hb : classifyResp (f b) = RespClass.skip) :
    ∀ (batches : List (List String)) (db : Table) (calls : List (List String)),
    addBatches f upOk now ttl batches db calls =
      addBatches (overrideResp f b) upOk now ttl batches db calls := by
  intro batches
  induction batches with
  | nil => intro db calls; rfl
  | cons batch rest ih =>
    intro db calls
    cases hemp : ((batch.filter fun x => needsUpdate db x now ttl).isEmpty) with
    | true =>
      rw [addBatches_step_none f upOk now ttl batch rest db calls hemp,
          addBatches_step_none (overrideResp f b) upOk now ttl batch rest db calls hemp]
      exact ih db calls
    | false =>
      by_cases hreq : (batch.filter fun x => needsUpdate db x now ttl) = b
      · have hcrL : classifyResp (f (batch.filter fun x => needsUpdate db x now ttl)) =
            RespClass.skip := by rw [hreq]; exact hb
        have hcrR : classifyResp
            (overrideResp f b (batch.filter fun x => needsUpdate db x now ttl)) =
            RespClass.proceed [] := by
          unfold overrideResp
          rw [if_pos hreq]
          rfl
        rw [addBatches_step_skip f upOk now ttl batch rest db calls hemp hcrL,
            addBatches_step_ok (overrideResp f b) upOk now ttl batch rest db db calls []
              hemp hcrR rfl]
        exact ih db _
      · have hov : overrideResp f b (batch.filter fun x => needsUpdate db x now ttl) =
            f (batch.filter fun x => needsUpdate db x now ttl) := by
          unfold overrideResp
          rw [if_neg hreq]
        cases hcr : classifyResp (f (batch.filter fun x => needsUpdate db x now ttl)) with
        | skip =>
          rw [addBatches_step_skip f upOk now ttl batch rest db calls hemp hcr,
              addBatches_step_skip (overrideResp f b) upOk now ttl batch rest db calls hemp
                (by rw [hov]; exact hcr)]
          exact ih db _
        | raiseErr =>
          rw [addBatches_step_raise f upOk now ttl batch rest db calls hemp hcr,
              addBatches_step_raise (overrideResp f b) upOk now ttl batch rest db calls hemp
                (by rw [hov]; exact hcr)]
        | proceed ts =>
          cases hpt : processTitles upOk now ts db with
          | ok db2 =>
            rw [addBatches_step_ok f upOk now ttl batch rest db db2 calls ts hemp hcr hpt,
                addBatches_step_ok (overrideResp f b) upOk now ttl batch rest db db2 calls ts
                  hemp (by rw [hov]; exact hcr) hpt]
            exact ih db2 _
          | error e =>
            rw [addBatches_step_error f upOk now ttl batch rest db calls ts e hemp hcr hpt,
                addBatches_step_error (overrideResp f b) upOk now ttl batch rest db calls ts e
                  hemp (by rw [hov]; exact hcr) hpt]

/-- Claim C4 as amended: a malformed or empty remote response (None, a
falsy body, or a body without a titles member) for one sub-batch is logged
and that sub-batch skipped without affecting its siblings — the whole add
behaves exactly as if that sub-batch had received a well-formed empty
response; but a malformed payload item inside a decoded response raises,
rolls the current sub-batch back, and aborts the remaining sub-batches
(see the counterexample). -/
theorem add_malformed_response_harmless (f : List String → Option Json) (upOk : String → Bool)
    (now ttl : Int) (ids : List String) (db : Table) (b : List String)
    (hb : classifyResp (f b) = RespClass.skip) :
    _add_task f upOk now ttl ids db = _add_task (overrideResp f b) upOk now ttl ids db := by
  unfold _add_task
  exact addBatches_override f upOk now ttl b hb (chunks ids 5) db []

/-- Witness for C4 (amended): an oracle that always answers None (a
malformed response) acts on a concrete call exactly like the same oracle
with the ["a"] batch overridden by an empty-titles response. -/
theorem add_malformed_response_harmless_witness :
    _add_task (fun _ => none) (fun _ => true) 100 50 ["a"] [] =
      _add_task (overrideResp (fun _ => none) ["a"]) (fun _ => true) 100 50 ["a"] [] :=
  add_malformed_response_harmless (fun _ => none) (fun _ => true) 100 50 ["a"] [] ["a"] rfl

/-- Claim C9 as amended: when an exception (in particular a storage error
from the upsert) hits while a sub-batch is being written, the batch is
rolled back as a unit — the resulting table is exactly the state last
committed, with no partial writes observable and the sub-batches committed
earlier (already inside `db`) intact; the remaining sub-batches are not
processed, and the failure is logged and swallowed rather than surfaced:
the task returns with no escaping exception. -/
theorem add_storage_error_rolled_back (f : List String → Option Json) (upOk : String → Bool)
    (now ttl : Int) (batch : List String) (rest : List (List String)) (db : Table)
    (calls : List (List String)) (ts : List Json)
    (hemp : ((batch.filter fun x => needsUpdate db x now ttl).isEmpty) = false)
    (hcr : classifyResp (f (batch.filter fun x => needsUpdate db x now ttl)) =
      RespClass.proceed ts)
    (hpt : processTitles upOk now ts db = Except.error ()) :
    (addBatches f upOk now ttl (batch :: rest) db calls).db = db
    ∧ (addBatches f upOk now ttl (batch :: rest) db calls).calls =
        calls ++ [batch.filter fun x => needsUpdate db x now ttl]
    ∧ (addBatches f upOk now ttl (batch :: rest) db calls).escaped = none := by
  rw [addBatches_step_error f upOk now ttl batch rest db calls ts () hemp hcr hpt]
  exact ⟨rfl, rfl, rfl⟩

/-- Witness for C9 (amended): a concrete run whose upsert oracle fails on
a well-formed movie response; the table stays at its pre-batch state, the
remaining sub-batch is not processed, and nothing escapes. -/
theorem add_storage_error_rolled_back_witness :
    (addBatches (fun _ => some (Json.obj [("titles",
        Json.arr [Json.obj [("type", Json.str "movie"), ("id", Json.str "a")]])]))
      (fun _ => false) 100 10 [["a"], ["b"]] [] []).db = []
    ∧ (addBatches (fun _ => some (Json.obj [("titles",
        Json.arr [Json.obj [("type", Json.str "movie"), ("id", Json.str "a")]])]))
      (fun _ => false) 100 10 [["a"], ["b"]] [] []).escaped = none := by
  have h := add_storage_error_rolled_back
    (fun _ => some (Json.obj [("titles",
      Json.arr [Json.obj [("type", Json.str "movie"), ("id", Json.str "a")]])]))
    (fun _ => false) 100 10 ["a"] [["b"]] [] [] 
    [Json.obj [("type", Json.str "movie"), ("id", Json.str "a")]]
    rfl rfl rfl
  exact ⟨h.1, h.2.2⟩
